import Mathlib

/-!
Verification of the search-ranking core of the UK Garage Finder
(`streamlit_app.py`, class `GarageSearchEngine`).

Strings are modelled as `List Char`; Python `str.lower` / `str.upper` are
modelled by mapping `Char.toLower` / `Char.toUpper` (ASCII case folding).
Nullable pandas cells are `Option (List Char)`.

The TF-IDF vectorizer and cosine similarity come from scikit-learn, an
external library outside this repository; its scores are irrational reals in
general, so the engine is modelled with an abstract score function
`sim : query -> record -> Rat` standing for
`cosine_similarity(tfidf.transform([query]), tfidf_matrix)[row of record]`.
Every theorem quantifying over engines therefore covers the score function
the real pipeline induces.  (The score of a row depends only on the row's
search text, hence only on the record, so a function of the record is
faithful.)

Pandas `Series.str.contains(pat)` uses `re.search` with `regex=True` by
default.  Full Python regular expressions are not embedded; `pdContains`
below models the literal-and-dot fragment exactly (enough to separate regex
search from substring containment) and theorems about the containment clause
restrict queries to that fragment.
-/

/-- Lowercase a modelled string, as Python `str.lower` on ASCII. -/
def lowerStr (s : List Char) : List Char := s.map Char.toLower

/-- Uppercase a modelled string, as Python `str.upper` on ASCII. -/
def upperStr (s : List Char) : List Char := s.map Char.toUpper

/-- Does `s` start with `pre` (character-wise)? -/
def startsList : List Char → List Char → Bool
  | [], _ => true
  | _ :: _, [] => false
  | a :: as, b :: bs => a = b && startsList as bs

/-- Does `s` contain `need` as a contiguous substring?  Matches Python
`need in s` semantics (the empty string is contained in every string). -/
def subStr (need : List Char) : List Char → Bool
  | [] => startsList need []
  | c :: rest => startsList need (c :: rest) || subStr need rest

/-- Characters that are metacharacters in Python regular expressions. -/
def regexSpecial (c : Char) : Bool :=
  c = '.' || c = '^' || c = '$' || c = '*' || c = '+' || c = '?' ||
  c = '\x7b' || c = '\x7d' || c = '[' || c = ']' || c = '\\' ||
  c = '|' || c = '(' || c = ')'

/-- Token of the modelled regex fragment: a literal character, or the
wildcard `.` (which in Python matches any character except newline). -/
inductive ReTok where
  | lit (c : Char)
  | wild
deriving DecidableEq

/-- Parse a pattern string into fragment tokens; `none` when the pattern
uses regex features outside the literal-and-dot fragment. -/
def parseRe : List Char → Option (List ReTok)
  | [] => some []
  | c :: rest =>
    if c = '.' then (parseRe rest).map (ReTok.wild :: ·)
    else if regexSpecial c then none
    else (parseRe rest).map (ReTok.lit c :: ·)

/-- Does one regex token match one character? -/
def tokMatch : ReTok → Char → Bool
  | ReTok.lit c, d => c = d
  | ReTok.wild, d => d ≠ '\n'

/-- Does the token list match a leading segment of `s`? -/
def matchHere : List ReTok → List Char → Bool
  | [], _ => true
  | _ :: _, [] => false
  | t :: ts, c :: cs => tokMatch t c && matchHere ts cs

/-- Python `re.search` for the fragment: does the token list match starting
at some position of `s` (including the empty suffix)? -/
def reSearch (toks : List ReTok) : List Char → Bool
  | [] => matchHere toks []
  | c :: rest => matchHere toks (c :: rest) || reSearch toks rest

/-- Pandas `Series.str.contains(pat)` on one cell, `regex=True`, for
patterns in the literal-and-dot fragment; patterns outside the fragment are
not modelled (theorems using this restrict the query accordingly). -/
def pdContains (pat s : List Char) : Bool :=
  match parseRe pat with
  | some toks => reSearch toks s
  | none => false

/-- ASCII uppercase letter, the `[A-Z]` character class. -/
def isUpperLetter (c : Char) : Bool := 'A' ≤ c && c ≤ 'Z'

/-- ASCII letter of either case, the `[A-Z]` class under `re.IGNORECASE`. -/
def isAnyLetter (c : Char) : Bool :=
  ('A' ≤ c && c ≤ 'Z') || ('a' ≤ c && c ≤ 'z')

/-- ASCII digit, the `\d` character class (ASCII fragment). -/
def isDigitCh (c : Char) : Bool := '0' ≤ c && c ≤ '9'

/-- Letter test for the area pattern: case-insensitive when `ci` is true. -/
def areaLetter (ci : Bool) (c : Char) : Bool :=
  if ci then isAnyLetter c else isUpperLetter c

/-- Greedy continuation for `\d{1,2}` after one digit was consumed: take a
second digit when the next character is one. -/
def extraDigit : List Char → List Char
  | d :: _ => if isDigitCh d then [d] else []
  | [] => []

/-- Match of `([A-Z]{1,2}\d{1,2})` anchored at the start of the input, with
the greedy backtracking order of Python `re`: two letters are preferred over
one, two digits over one. -/
def areaAt (ci : Bool) : List Char → Option (List Char)
  | [] => none
  | a :: rest =>
    if areaLetter ci a then
      match rest with
      | [] => none
      | b :: rest2 =>
        if areaLetter ci b then
          match rest2 with
          | [] => none
          | d :: rest3 =>
            if isDigitCh d then some (a :: b :: d :: extraDigit rest3) else none
        else if isDigitCh b then
          some (a :: b :: extraDigit rest2)
        else none
    else none

/-- Python `re.search(r'([A-Z]{1,2}\d{1,2})', s)`: the leftmost match of the
area pattern, or `none`. -/
def areaSearch (ci : Bool) : List Char → Option (List Char)
  | [] => none
  | c :: rest =>
    match areaAt ci (c :: rest) with
    | some m => some m
    | none => areaSearch ci rest

/-- Shape check: one or two letters followed by one or two digits. -/
def areaShape (ci : Bool) (m : List Char) : Bool :=
  match m with
  | [a, d] => areaLetter ci a && isDigitCh d
  | [a, b, d] =>
    (areaLetter ci a && areaLetter ci b && isDigitCh d) ||
    (areaLetter ci a && isDigitCh b && isDigitCh d)
  | [a, b, d, d2] => areaLetter ci a && areaLetter ci b && isDigitCh d && isDigitCh d2
  | _ => false

/-- One garage record: a row of the loaded table.  Cells are nullable, as
pandas cells are. -/
structure Record where
  garageName : Option (List Char)
  location : Option (List Char)
  city : Option (List Char)
  postcode : Option (List Char)
  phone : Option (List Char)
  email : Option (List Char)
  website : Option (List Char)
deriving DecidableEq

/-- The loaded search engine: the catalog (`self.df` rows), the derived
per-row search text and postcode area columns, and the abstract TF-IDF
cosine-similarity score function (see the module docstring). -/
structure Engine where
  catalog : List Record
  searchText : List (List Char)
  postcodeArea : List (Option (List Char))
  sim : List Char → Record → ℚ

/-- Descending-score order on scored records, the `ascending=False` sort key
of `sort_values('similarity_score', ascending=False)`. -/
def scoreGE (a b : Record × ℚ) : Prop := b.2 ≤ a.2

instance : DecidableRel scoreGE :=
  fun a b => inferInstanceAs (Decidable (b.2 ≤ a.2))

instance : IsTotal (Record × ℚ) scoreGE := ⟨fun a b => le_total b.2 a.2⟩

instance : IsTrans (Record × ℚ) scoreGE := ⟨fun _ _ _ h1 h2 => le_trans h2 h1⟩

/-- Sort scored records by similarity score, descending. -/
def sortDesc (l : List (Record × ℚ)) : List (Record × ℚ) :=
  List.insertionSort scoreGE l

/-- The name-containment clause of `_search_by_name`:
`results_df['Garage Name'].str.lower().str.contains(name.lower(), na=False)`
on one row.  A null name gives `False` (the `na=False` argument); otherwise
pandas runs `re.search` with the lowercased query as the pattern. -/
def nameContains (r : Record) (ql : List Char) : Bool :=
  match r.garageName with
  | none => false
  | some n => pdContains ql (lowerStr n)

/-- `GarageSearchEngine._search_by_name(name, threshold)`: attach the
similarity score of the lowercased query to every row, keep the rows whose
score reaches the threshold or whose name matches the containment clause,
and sort by score descending. -/
def searchByName (e : Engine) (q : List Char) (t : ℚ) : List (Record × ℚ) :=
  sortDesc ((e.catalog.map (fun r => (r, e.sim (lowerStr q) r))).filter
    (fun p => t ≤ p.2 || nameContains p.1 (lowerStr q)))

/-- The literal `0.1` of the source, the fixed similarity threshold.  It is
written with `mkRat` (the same rational as `1 / 10`, see `pointOne_eq`) so
that the kernel can evaluate concrete searches. -/
def pointOne : ℚ := mkRat 1 10

/-- `GarageSearchEngine._search_by_location(location)`: same scoring, fixed
threshold `0.1`, no containment clause, sorted by score descending. -/
def searchByLocation (e : Engine) (q : List Char) : List (Record × ℚ) :=
  sortDesc ((e.catalog.map (fun r => (r, e.sim (lowerStr q) r))).filter
    (fun p => pointOne ≤ p.2))

/-- The postcode filter of `_search_nearby`:
`Postcode.str.contains(f"^{area_prefix}", case=False, na=False)` on one
cell.  The two-character prefix is alphanumeric, so the anchored regex is
exactly a case-insensitive starts-with test; a null postcode gives `False`. -/
def postStarts (pc : Option (List Char)) (pre : List Char) : Bool :=
  match pc with
  | none => false
  | some p => startsList (lowerStr pre) (lowerStr p)

/-- `GarageSearchEngine._search_nearby(postcode)`: extract the first area
pattern from the uppercased query (no match yields an empty frame), then
keep the catalog rows whose postcode starts with the first two characters of
the match, case-insensitively, in catalog order. -/
def searchNearby (e : Engine) (q : List Char) : List Record :=
  match areaSearch false (upperStr q) with
  | none => []
  | some m => e.catalog.filter (fun r => postStarts r.postcode (m.take 2))

/-- The (Garage Name, Postcode) identity key of a record, the `subset` of
`drop_duplicates`.  Null cells compare equal to null cells, as pandas
`drop_duplicates` treats NaN keys. -/
def recKey (r : Record) : Option (List Char) × Option (List Char) :=
  (r.garageName, r.postcode)

/-- Identity key of a result row (keys ignore the score column). -/
def keyOf (p : Record × Option ℚ) : Option (List Char) × Option (List Char) :=
  recKey p.1

/-- Order-preserving de-duplication with an accumulator of already-seen
keys: a row whose key was seen before is dropped. -/
def dedupAux (seen : List (Option (List Char) × Option (List Char))) :
    List (Record × Option ℚ) → List (Record × Option ℚ)
  | [] => []
  | p :: rest =>
    if keyOf p ∈ seen then dedupAux seen rest
    else p :: dedupAux (keyOf p :: seen) rest

/-- De-duplication by identity key, keeping the first occurrence of each
key: `drop_duplicates(subset=['Garage Name', 'Postcode'])` with the default
`keep='first'`. -/
def dedupByKey (l : List (Record × Option ℚ)) : List (Record × Option ℚ) :=
  dedupAux [] l

/-- Attach the present similarity-score column, for rows coming from the
scored strategies. -/
def liftScored (l : List (Record × ℚ)) : List (Record × Option ℚ) :=
  l.map (fun p => (p.1, some p.2))

/-- Rows of the nearby strategy carry no similarity score (`pd.concat`
leaves the column missing for them). -/
def liftPlain (l : List Record) : List (Record × Option ℚ) :=
  l.map (fun r => (r, none))

/-- `GarageSearchEngine._comprehensive_search(query)`: by-name at threshold
`0.1`, then by-location, then nearby, concatenated and de-duplicated by the
identity key. -/
def comprehensiveSearch (e : Engine) (q : List Char) : List (Record × Option ℚ) :=
  dedupByKey
    (liftScored (searchByName e q pointOne) ++
     liftScored (searchByLocation e q) ++
     liftPlain (searchNearby e q))

/-- `GarageSearchEngine.search(query, search_type, threshold=0.1)`: string
dispatch over the strategy tag; every unrecognized tag falls through to the
comprehensive search. -/
def search (e : Engine) (q : List Char) (tag : String) (t : ℚ) :
    List (Record × Option ℚ) :=
  if tag = "name" then liftScored (searchByName e q t)
  else if tag = "location" then liftScored (searchByLocation e q)
  else if tag = "nearby" then liftPlain (searchNearby e q)
  else comprehensiveSearch e q

/-- The search methods as state transformers on the engine: each method
reads `self.df`, `self.tfidf` and `self.tfidf_matrix`, works on a copy
(`self.df.copy()`), and writes nothing back to `self`, so the resulting
engine state is the input state. -/
def searchS (e : Engine) (q : List Char) (tag : String) (t : ℚ) :
    List (Record × Option ℚ) × Engine :=
  (search e q tag t, e)

/-- Run a whole sequence of searches, threading the engine state. -/
def runSearches (e : Engine) : List (List Char × String × ℚ) → Engine
  | [] => e
  | (q, tag, t) :: rest => runSearches (searchS e q tag t).2 rest

/-- Load-time error conditions: `pd.read_csv` raising on a missing file, or
a `KeyError` when `prepare_data` accesses a column the table lacks. -/
inductive DataError where
  | missingFile
  | missingColumn (c : String)
deriving DecidableEq

/-- The raw tabular source: header names and per-row cells aligned with the
header (cells are nullable). -/
structure RawTable where
  cols : List String
  rows : List (List (Option (List Char)))

/-- Column access on one row, `row[c]`: a `KeyError` when the table has no
column `c`, the (nullable) cell otherwise. -/
def getCell (t : RawTable) (row : List (Option (List Char))) (c : String) :
    Except DataError (Option (List Char)) :=
  if t.cols.contains c then Except.ok (row.getD (t.cols.indexOf c) none)
  else Except.error (DataError.missingColumn c)

/-- Column access that a loaded frame simply carries or lacks: used for the
columns `prepare_data` never touches (Phone, Email, Website), whose absence
is not observed at load time. -/
def optCell (t : RawTable) (row : List (Option (List Char))) (c : String) :
    Option (List Char) :=
  match getCell t row c with
  | Except.ok v => v
  | Except.error _ => none

/-- Python `f"{cell}"` rendering of a nullable cell: NaN prints as `nan`. -/
def cellText : Option (List Char) → List Char
  | none => ['n', 'a', 'n']
  | some s => s

/-- The search-text lambda of `prepare_data` on one row:
`f"{x['Garage Name']} {x['Location']} {x['City']} {x['Postcode']}"`,
lowercased.  Accessing any of the four columns on a row raises when the
column is missing. -/
def rowSearchText (t : RawTable) (row : List (Option (List Char))) :
    Except DataError (List Char) :=
  match getCell t row "Garage Name", getCell t row "Location",
        getCell t row "City", getCell t row "Postcode" with
  | Except.error e, _, _, _ => Except.error e
  | _, Except.error e, _, _ => Except.error e
  | _, _, Except.error e, _ => Except.error e
  | _, _, _, Except.error e => Except.error e
  | Except.ok n, Except.ok l, Except.ok c, Except.ok p =>
    Except.ok (lowerStr (cellText n ++ [' '] ++ cellText l ++ [' '] ++
                         cellText c ++ [' '] ++ cellText p))

/-- Build the record of one row.  Only the four columns the search-text
lambda reads are demanded; the remaining columns are carried when present. -/
def buildRecord (t : RawTable) (row : List (Option (List Char))) :
    Except DataError Record :=
  match getCell t row "Garage Name", getCell t row "Location",
        getCell t row "City", getCell t row "Postcode" with
  | Except.error e, _, _, _ => Except.error e
  | _, Except.error e, _, _ => Except.error e
  | _, _, Except.error e, _ => Except.error e
  | _, _, _, Except.error e => Except.error e
  | Except.ok n, Except.ok l, Except.ok c, Except.ok p =>
    Except.ok { garageName := n, location := l, city := c, postcode := p,
                phone := optCell t row "Phone",
                email := optCell t row "Email",
                website := optCell t row "Website" }

/-- Error-propagating map, the evaluation order of a pandas `apply` over the
rows: the first failing row aborts the whole load. -/
def mapExcept (f : α → Except DataError β) : List α → Except DataError (List β)
  | [] => Except.ok []
  | a :: l =>
    match f a with
    | Except.error e => Except.error e
    | Except.ok b =>
      match mapExcept f l with
      | Except.error e => Except.error e
      | Except.ok bs => Except.ok (b :: bs)

/-- The loaded, prepared engine state before the abstract TF-IDF fit: the
record collection and the two derived columns. -/
structure Prepared where
  catalog : List Record
  searchText : List (List Char)
  postcodeArea : List (Option (List Char))
deriving DecidableEq

/-- `GarageSearchEngine.__init__` / `prepare_data` up to the abstract TF-IDF
fit: `pd.read_csv` fails on a missing source (`none`); building the
search-text column demands Garage Name, Location, City and Postcode on every
row; the postcode-area extraction demands the Postcode column; on any
failure no catalog, partial or otherwise, is produced. -/
def loadPrepared (src : Option RawTable) : Except DataError Prepared :=
  match src with
  | none => Except.error DataError.missingFile
  | some t =>
    match mapExcept (rowSearchText t) t.rows with
    | Except.error e => Except.error e
    | Except.ok texts =>
      if t.cols.contains "Postcode" then
        match mapExcept (buildRecord t) t.rows with
        | Except.error e => Except.error e
        | Except.ok recs =>
          Except.ok { catalog := recs, searchText := texts,
                      postcodeArea := t.rows.map
                        (fun row => (optCell t row "Postcode").bind (areaSearch true)) }
      else Except.error (DataError.missingColumn "Postcode")

/-- Success test on a load result. -/
def exceptOk : Except DataError α → Bool
  | Except.ok _ => true
  | Except.error _ => false

/-- The four column names whose absence `prepare_data` observes. -/
def requiredCols : List String := ["Garage Name", "Location", "City", "Postcode"]

/-! ### Concrete sample data

The engine `e0` pairs a one-record catalog with the all-zero score function.
For the short queries used below (`.`, `acme`, the empty string) this is the
score function the real pipeline produces: the scikit-learn tokenizer keeps
only word tokens of length at least two, so those queries transform to the
zero vector and every cosine similarity is `0`. -/

def rec1 : Record :=
  { garageName := some "Acme".toList, location := none, city := none,
    postcode := some "SW1A 1AA".toList, phone := none, email := none,
    website := none }

def e0 : Engine :=
  { catalog := [rec1], searchText := ["acme nan nan sw1a 1aa".toList],
    postcodeArea := [some "SW1".toList], sim := fun _ _ => 0 }

/-- Tabular source with the four columns `prepare_data` reads but without
Phone, Email, Website. -/
def tabNoPhone : RawTable :=
  { cols := requiredCols,
    rows := [[some "Acme".toList, none, some "London".toList,
              some "SW1A 1AA".toList]] }

/-- Tabular source missing the City column. -/
def tabNoCity : RawTable :=
  { cols := ["Garage Name", "Location", "Postcode"],
    rows := [[some "Acme".toList, none, some "SW1A 1AA".toList]] }

/-! ### Helper lemmas about sorting, filtering and lifting -/

theorem mem_sortDesc {l : List (Record × ℚ)} {p : Record × ℚ} :
    p ∈ sortDesc l ↔ p ∈ l :=
  List.mem_insertionSort scoreGE

theorem length_sortDesc (l : List (Record × ℚ)) :
    (sortDesc l).length = l.length :=
  (List.perm_insertionSort scoreGE l).length_eq

theorem sorted_sortDesc (l : List (Record × ℚ)) :
    (sortDesc l).Sorted scoreGE :=
  List.sorted_insertionSort scoreGE l

theorem mem_searchByName {e : Engine} {q : List Char} {t : ℚ} {p : Record × ℚ} :
    p ∈ searchByName e q t ↔
      p.1 ∈ e.catalog ∧ p.2 = e.sim (lowerStr q) p.1 ∧
        (t ≤ p.2 ∨ nameContains p.1 (lowerStr q) = true) := by
  unfold searchByName
  rw [mem_sortDesc, List.mem_filter]
  constructor
  · rintro ⟨hm, hcond⟩
    rcases List.mem_map.mp hm with ⟨r, hr, hEq⟩
    cases hEq
    exact ⟨hr, rfl, by simpa using hcond⟩
  · rintro ⟨h1, h2, h3⟩
    refine ⟨List.mem_map.mpr ⟨p.1, h1, ?_⟩, by simpa using h3⟩
    cases p
    simp_all

theorem mem_searchByLocation {e : Engine} {q : List Char} {p : Record × ℚ} :
    p ∈ searchByLocation e q ↔
      p.1 ∈ e.catalog ∧ p.2 = e.sim (lowerStr q) p.1 ∧ pointOne ≤ p.2 := by
  unfold searchByLocation
  rw [mem_sortDesc, List.mem_filter]
  constructor
  · rintro ⟨hm, hcond⟩
    rcases List.mem_map.mp hm with ⟨r, hr, hEq⟩
    cases hEq
    exact ⟨hr, rfl, by simpa using hcond⟩
  · rintro ⟨h1, h2, h3⟩
    refine ⟨List.mem_map.mpr ⟨p.1, h1, ?_⟩, by simpa using h3⟩
    cases p
    simp_all

theorem mem_liftScored {l : List (Record × ℚ)} {r : Record} {sc : Option ℚ} :
    (r, sc) ∈ liftScored l ↔ ∃ s : ℚ, sc = some s ∧ (r, s) ∈ l := by
  unfold liftScored
  rw [List.mem_map]
  constructor
  · rintro ⟨⟨r0, s0⟩, hm, hEq⟩
    cases hEq
    exact ⟨s0, rfl, hm⟩
  · rintro ⟨s, rfl, hm⟩
    exact ⟨(r, s), hm, rfl⟩

theorem mem_liftPlain {l : List Record} {r : Record} {sc : Option ℚ} :
    (r, sc) ∈ liftPlain l ↔ sc = none ∧ r ∈ l := by
  unfold liftPlain
  rw [List.mem_map]
  constructor
  · rintro ⟨r0, hm, hEq⟩
    cases hEq
    exact ⟨rfl, hm⟩
  · rintro ⟨rfl, hm⟩
    exact ⟨r, hm, rfl⟩

theorem length_filter_mono {α : Type} (p q : α → Bool) (l : List α)
    (h : ∀ a ∈ l, p a = true → q a = true) :
    (l.filter p).length ≤ (l.filter q).length := by
  induction l with
  | nil => simp
  | cons a l ih =>
    have ih2 := ih (fun x hx hp => h x (List.mem_cons_of_mem a hx) hp)
    by_cases hp : p a = true
    · rw [List.filter_cons_of_pos hp,
        List.filter_cons_of_pos (h a (List.mem_cons_self a l) hp)]
      simpa using ih2
    · rw [List.filter_cons_of_neg (by simpa using hp)]
      cases hq : q a
      · rw [List.filter_cons_of_neg (by simp [hq])]
        exact ih2
      · rw [List.filter_cons_of_pos hq]
        exact le_trans ih2 (Nat.le_succ _)

/-! ### The literal fragment of the containment regex -/

theorem parseRe_noSpecial {pat : List Char} (h : ∀ c ∈ pat, regexSpecial c = false) :
    parseRe pat = some (pat.map ReTok.lit) := by
  induction pat with
  | nil => rfl
  | cons c rest ih =>
    have hc : regexSpecial c = false := h c (List.mem_cons_self c rest)
    have hdot : ¬ c = '.' := by
      intro hEq
      rw [hEq] at hc
      simp [regexSpecial] at hc
    simp [parseRe, hdot, hc, ih (fun x hx => h x (List.mem_cons_of_mem c hx))]

theorem matchHere_lits (pat : List Char) (s : List Char) :
    matchHere (pat.map ReTok.lit) s = startsList pat s := by
  induction pat generalizing s with
  | nil => cases s <;> rfl
  | cons c cs ih =>
    cases s with
    | nil => rfl
    | cons d ds => simp [matchHere, startsList, tokMatch, ih]

theorem reSearch_lits (pat : List Char) (s : List Char) :
    reSearch (pat.map ReTok.lit) s = subStr pat s := by
  induction s with
  | nil => simpa [reSearch, subStr] using matchHere_lits pat []
  | cons c rest ih => simp [reSearch, subStr, matchHere_lits, ih]

theorem pdContains_noSpecial {pat : List Char} (s : List Char)
    (h : ∀ c ∈ pat, regexSpecial c = false) :
    pdContains pat s = subStr pat s := by
  simp [pdContains, parseRe_noSpecial h, reSearch_lits]

theorem pdContains_nil (s : List Char) : pdContains [] s = true := by
  cases s <;> simp [pdContains, parseRe, reSearch, matchHere]

theorem nameContains_iff {r : Record} {ql : List Char} :
    nameContains r ql = true ↔
      ∃ n, r.garageName = some n ∧ pdContains ql (lowerStr n) = true := by
  cases hg : r.garageName with
  | none => simp [nameContains, hg]
  | some n => simp [nameContains, hg]

/-! ### Shape of the extracted postcode area -/

theorem areaAt_shape {ci : Bool} {s m : List Char} (h : areaAt ci s = some m) :
    areaShape ci m = true := by
  cases s with
  | nil => simp [areaAt] at h
  | cons a rest =>
    by_cases ha : areaLetter ci a = true
    · cases rest with
      | nil => simp [areaAt, ha] at h
      | cons b rest2 =>
        by_cases hb : areaLetter ci b = true
        · cases rest2 with
          | nil => simp [areaAt, ha, hb] at h
          | cons d rest3 =>
            by_cases hd : isDigitCh d = true
            · have hm : a :: b :: d :: extraDigit rest3 = m := by
                simpa [areaAt, ha, hb, hd] using h
              cases rest3 with
              | nil =>
                rw [← hm]
                simp [areaShape, extraDigit, ha, hb, hd]
              | cons d2 rest4 =>
                by_cases hd2 : isDigitCh d2 = true <;>
                  · rw [← hm]
                    simp [areaShape, extraDigit, ha, hb, hd, hd2]
            · simp [areaAt, ha, hb, hd] at h
        · by_cases hb2 : isDigitCh b = true
          · have hm : a :: b :: extraDigit rest2 = m := by
              simpa [areaAt, ha, hb, hb2] using h
            cases rest2 with
            | nil =>
              rw [← hm]
              simp [areaShape, extraDigit, ha, hb2]
            | cons d2 rest3 =>
              by_cases hd2 : isDigitCh d2 = true <;>
                · rw [← hm]
                  simp [areaShape, extraDigit, ha, hb2, hd2]
          · simp [areaAt, ha, hb, hb2] at h
    · simp [areaAt, ha] at h

theorem areaSearch_shape {ci : Bool} {s m : List Char}
    (h : areaSearch ci s = some m) : areaShape ci m = true := by
  induction s with
  | nil => simp [areaSearch] at h
  | cons c rest ih =>
    cases hA : areaAt ci (c :: rest) with
    | some m2 =>
      have h2 : some m2 = some m := by
        rw [← h]
        simp [areaSearch, hA]
      cases h2
      exact areaAt_shape hA
    | none =>
      apply ih
      rw [← h]
      simp [areaSearch, hA]

/-! ### De-duplication by identity key -/

theorem mem_of_mem_dedupAux {seen : List (Option (List Char) × Option (List Char))}
    {l : List (Record × Option ℚ)} {p : Record × Option ℚ}
    (h : p ∈ dedupAux seen l) : p ∈ l := by
  induction l generalizing seen with
  | nil => simp [dedupAux] at h
  | cons a rest ih =>
    rw [dedupAux] at h
    by_cases ha : keyOf a ∈ seen
    · rw [if_pos ha] at h
      exact List.mem_cons_of_mem a (ih h)
    · rw [if_neg ha] at h
      rcases List.mem_cons.mp h with hEq | h2
      · exact hEq ▸ List.mem_cons_self _ _
      · exact List.mem_cons_of_mem a (ih h2)

theorem dedupAux_not_seen {seen : List (Option (List Char) × Option (List Char))}
    {l : List (Record × Option ℚ)} {p : Record × Option ℚ}
    (h : p ∈ dedupAux seen l) : keyOf p ∉ seen := by
  induction l generalizing seen with
  | nil => simp [dedupAux] at h
  | cons a rest ih =>
    rw [dedupAux] at h
    by_cases ha : keyOf a ∈ seen
    · rw [if_pos ha] at h
      exact ih h
    · rw [if_neg ha] at h
      rcases List.mem_cons.mp h with hEq | h2
      · rw [hEq]
        exact ha
      · intro hmem
        exact ih h2 (List.mem_cons_of_mem _ hmem)

theorem dedupAux_pairwise (seen : List (Option (List Char) × Option (List Char)))
    (l : List (Record × Option ℚ)) :
    (dedupAux seen l).Pairwise (fun a b => keyOf a ≠ keyOf b) := by
  induction l generalizing seen with
  | nil => simp [dedupAux]
  | cons a rest ih =>
    rw [dedupAux]
    by_cases ha : keyOf a ∈ seen
    · rw [if_pos ha]
      exact ih seen
    · rw [if_neg ha]
      refine List.pairwise_cons.mpr ⟨?_, ih _⟩
      intro b hb
      have := dedupAux_not_seen hb
      simp at this
      exact fun hEq => this.1 hEq.symm

theorem dedupByKey_pairwise (l : List (Record × Option ℚ)) :
    (dedupByKey l).Pairwise (fun a b => keyOf a ≠ keyOf b) :=
  dedupAux_pairwise [] l

theorem dedupAux_find {seen : List (Option (List Char) × Option (List Char))}
    {l : List (Record × Option ℚ)} {p : Record × Option ℚ}
    (hp : p ∈ dedupAux seen l) :
    l.find? (fun x => keyOf x = keyOf p) = some p := by
  induction l generalizing seen with
  | nil => simp [dedupAux] at hp
  | cons a rest ih =>
    rw [dedupAux] at hp
    by_cases ha : keyOf a ∈ seen
    · rw [if_pos ha] at hp
      have hne : ¬ keyOf a = keyOf p := by
        intro hEq
        exact dedupAux_not_seen hp (hEq ▸ ha)
      rw [List.find?_cons_of_neg _ (by simpa using hne)]
      exact ih hp
    · rw [if_neg ha] at hp
      rcases List.mem_cons.mp hp with hEq | h2
      · rw [hEq]
        exact List.find?_cons_of_pos _ (by simp)
      · have hps := dedupAux_not_seen h2
        have hne : ¬ keyOf a = keyOf p := by
          intro hEq
          exact hps (by rw [← hEq]; exact List.mem_cons_self _ _)
        rw [List.find?_cons_of_neg _ (by simpa using hne)]
        exact ih h2

theorem dedupByKey_find {l : List (Record × Option ℚ)} {p : Record × Option ℚ}
    (hp : p ∈ dedupByKey l) :
    l.find? (fun x => keyOf x = keyOf p) = some p :=
  dedupAux_find hp

theorem dedupAux_covers {seen : List (Option (List Char) × Option (List Char))}
    {l : List (Record × Option ℚ)} {p : Record × Option ℚ}
    (hp : p ∈ l) (hs : keyOf p ∉ seen) :
    ∃ p2 ∈ dedupAux seen l, keyOf p2 = keyOf p := by
  induction l generalizing seen with
  | nil => simp at hp
  | cons a rest ih =>
    rw [dedupAux]
    by_cases ha : keyOf a ∈ seen
    · rw [if_pos ha]
      rcases List.mem_cons.mp hp with hEq | h2
      · exact absurd (hEq ▸ ha) hs
      · exact ih h2 hs
    · rw [if_neg ha]
      rcases List.mem_cons.mp hp with hEq | h2
      · exact ⟨a, List.mem_cons_self _ _, by rw [hEq]⟩
      · by_cases hk : keyOf p = keyOf a
        · exact ⟨a, List.mem_cons_self _ _, hk.symm⟩
        · have hs2 : keyOf p ∉ keyOf a :: seen := by
            intro hmem
            rcases List.mem_cons.mp hmem with hEq2 | h3
            · exact hk hEq2
            · exact hs h3
          rcases ih h2 hs2 with ⟨p2, hp2, hk2⟩
          exact ⟨p2, List.mem_cons_of_mem a hp2, hk2⟩

theorem dedupByKey_covers {l : List (Record × Option ℚ)} {p : Record × Option ℚ}
    (hp : p ∈ l) : ∃ p2 ∈ dedupByKey l, keyOf p2 = keyOf p :=
  dedupAux_covers hp (by simp)

theorem find?_append_mem {l1 l2 : List (Record × Option ℚ)}
    {pr : Record × Option ℚ → Bool} {p : Record × Option ℚ}
    (hfind : (l1 ++ l2).find? pr = some p) (hex : ∃ x ∈ l1, pr x = true) :
    p ∈ l1 := by
  induction l1 with
  | nil =>
    rcases hex with ⟨x, hx, _⟩
    simp at hx
  | cons a rest ih =>
    by_cases ha : pr a = true
    · rw [List.cons_append, List.find?_cons_of_pos _ ha] at hfind
      cases hfind
      exact List.mem_cons_self _ _
    · rw [List.cons_append, List.find?_cons_of_neg _ (by simpa using ha)] at hfind
      rcases hex with ⟨x, hx, hpx⟩
      rcases List.mem_cons.mp hx with rfl | hx2
      · exact absurd hpx ha
      · exact List.mem_cons_of_mem a (ih hfind ⟨x, hx2, hpx⟩)

/-! ### Load-time failure propagation -/

theorem rowSearchText_error (t : RawTable) (row : List (Option (List Char)))
    (h : ∃ c ∈ requiredCols, t.cols.contains c = false) :
    ∃ er, rowSearchText t row = Except.error er := by
  by_cases h1 : "Garage Name" ∈ t.cols
  · by_cases h2 : "Location" ∈ t.cols
    · by_cases h3 : "City" ∈ t.cols
      · by_cases h4 : "Postcode" ∈ t.cols
        · exfalso
          rcases h with ⟨c, hc, hf⟩
          simp [requiredCols] at hc
          simp at hf
          rcases hc with rfl | rfl | rfl | rfl <;> simp_all
        · exact ⟨DataError.missingColumn "Postcode",
            by simp [rowSearchText, getCell, h1, h2, h3, h4]⟩
      · exact ⟨DataError.missingColumn "City",
          by simp [rowSearchText, getCell, h1, h2, h3]⟩
    · exact ⟨DataError.missingColumn "Location",
        by simp [rowSearchText, getCell, h1, h2]⟩
  · exact ⟨DataError.missingColumn "Garage Name",
      by simp [rowSearchText, getCell, h1]⟩

theorem mapExcept_error_head {α β : Type} {f : α → Except DataError β} {a : α}
    {l : List α} {er : DataError} (h : f a = Except.error er) :
    mapExcept f (a :: l) = Except.error er := by
  simp [mapExcept, h]

theorem loadPrepared_error_of_missing (t : RawTable)
    (r0 : List (Option (List Char))) (rest : List (List (Option (List Char))))
    (hrows : t.rows = r0 :: rest)
    (h : ∃ c ∈ requiredCols, t.cols.contains c = false) :
    exceptOk (loadPrepared (some t)) = false := by
  rcases rowSearchText_error t r0 h with ⟨er, her⟩
  have hmap : mapExcept (rowSearchText t) t.rows = Except.error er := by
    rw [hrows]
    exact mapExcept_error_head her
  simp [loadPrepared, hmap, exceptOk]

/-! ### Claim theorems -/

theorem pointOne_eq : pointOne = 1 / 10 := by
  rw [pointOne, Rat.mkRat_eq_divInt, Rat.divInt_eq_div]
  norm_num

theorem search_name_eq (e : Engine) (q : List Char) (t : ℚ) :
    search e q "name" t = liftScored (searchByName e q t) := by
  simp [search]

theorem search_location_eq (e : Engine) (q : List Char) (t : ℚ) :
    search e q "location" t = liftScored (searchByLocation e q) := by
  simp [search]

theorem search_nearby_eq (e : Engine) (q : List Char) (t : ℚ) :
    search e q "nearby" t = liftPlain (searchNearby e q) := by
  simp [search]

/-- Claim C1, counterexample to the claim as stated: the containment clause
of `_search_by_name` is a pandas `str.contains` with its default
`regex=True`, not a substring test.  With the catalog `[rec1]` (name
`Acme`), the query `.` and threshold `1`, the record is returned — the regex
`.` matches any character of `acme` — even though its similarity score `0`
is below the threshold and `.` is not a substring of the name.  (The
all-zero scores of `e0` are what the real pipeline computes here: the
tokenizer drops the bare `.`, so the query vector is zero.)  So the record
satisfies neither of the two conditions the claim allows. -/
theorem c1_counterexample :
    (rec1, some (0 : ℚ)) ∈ search e0 ['.'] "name" 1 ∧
    e0.sim (lowerStr ['.']) rec1 = 0 ∧
    ¬ ((1 : ℚ) ≤ (0 : ℚ)) ∧
    rec1.garageName = some "Acme".toList ∧
    subStr (lowerStr ['.']) (lowerStr "Acme".toList) = false := by
  refine ⟨by decide, rfl, by decide, rfl, by decide⟩

/-- Claim C1 (amended): for every query whose lowercasing contains no
Python-regex metacharacter — so the `str.contains` pattern is a literal —
`search(q, "name", t)` returns exactly the catalog records whose similarity
score reaches `t` or whose name contains the query as a case-insensitive
substring, each carrying its score.  For queries with metacharacters the
second clause is a regex search instead (see `c1_counterexample`). -/
theorem c1_name_filter_exact (e : Engine) (q : List Char) (t : ℚ)
    (h : ∀ c ∈ lowerStr q, regexSpecial c = false) (r : Record) (sc : Option ℚ) :
    (r, sc) ∈ search e q "name" t ↔
      r ∈ e.catalog ∧ sc = some (e.sim (lowerStr q) r) ∧
        (t ≤ e.sim (lowerStr q) r ∨
          ∃ n, r.garageName = some n ∧
            subStr (lowerStr q) (lowerStr n) = true) := by
  rw [search_name_eq, mem_liftScored]
  constructor
  · rintro ⟨s, rfl, hm⟩
    rcases mem_searchByName.mp hm with ⟨h1, h2, h3⟩
    refine ⟨h1, congrArg some h2, ?_⟩
    rcases h3 with h3 | h3
    · exact Or.inl (le_of_le_of_eq h3 h2)
    · right
      rcases nameContains_iff.mp h3 with ⟨n, hn, hc⟩
      exact ⟨n, hn, by rw [← pdContains_noSpecial _ h]; exact hc⟩
  · rintro ⟨h1, rfl, h3⟩
    refine ⟨_, rfl, mem_searchByName.mpr ⟨h1, rfl, ?_⟩⟩
    rcases h3 with h3 | h3
    · exact Or.inl h3
    · right
      rcases h3 with ⟨n, hn, hsub⟩
      exact nameContains_iff.mpr ⟨n, hn, by rw [pdContains_noSpecial _ h]; exact hsub⟩

/-- Witness for `c1_name_filter_exact` at the engine `e0`, the
metacharacter-free query `acme`, threshold `1` and the record `rec1`. -/
theorem c1_name_filter_exact_witness :
    (rec1, some (0 : ℚ)) ∈ search e0 "acme".toList "name" 1 ↔
      rec1 ∈ e0.catalog ∧
        some (0 : ℚ) = some (e0.sim (lowerStr "acme".toList) rec1) ∧
        ((1 : ℚ) ≤ e0.sim (lowerStr "acme".toList) rec1 ∨
          ∃ n, rec1.garageName = some n ∧
            subStr (lowerStr "acme".toList) (lowerStr n) = true) :=
  c1_name_filter_exact e0 "acme".toList 1 (by decide) rec1 (some 0)

/-- Claim C2: for every catalog and query, `search(q, "nearby", _)` returns
only records whose postcode starts, case-insensitively, with the
two-character prefix of the first letters-then-digits area pattern found in
the uppercased query (the match indeed has the 1–2 letters, 1–2 digits
shape); when the query contains no such pattern the result is empty and no
error is raised. -/
theorem c2_nearby_area_filter (e : Engine) (q : List Char) (t : ℚ) :
    (areaSearch false (upperStr q) = none → search e q "nearby" t = []) ∧
    (∀ m, areaSearch false (upperStr q) = some m →
      areaShape false m = true ∧
      ∀ r sc, (r, sc) ∈ search e q "nearby" t →
        r ∈ e.catalog ∧ postStarts r.postcode (m.take 2) = true) := by
  constructor
  · intro hnone
    rw [search_nearby_eq]
    simp [searchNearby, hnone, liftPlain]
  · intro m hm
    refine ⟨areaSearch_shape hm, ?_⟩
    intro r sc hmem
    rw [search_nearby_eq] at hmem
    rcases mem_liftPlain.mp hmem with ⟨_, hr⟩
    have hr2 : r ∈ e.catalog.filter (fun r => postStarts r.postcode (m.take 2)) := by
      simpa [searchNearby, hm] using hr
    exact ⟨(List.mem_filter.mp hr2).1, (List.mem_filter.mp hr2).2⟩

/-- Witness for `c2_nearby_area_filter` at the engine `e0` and query `sw1`: the
matched area is `SW1`, it has the area shape, and the returned record `rec1`
(postcode `SW1A 1AA`) lies in the catalog and starts with the prefix `SW`. -/
theorem c2_nearby_area_filter_witness :
    areaShape false "SW1".toList = true ∧
    rec1 ∈ e0.catalog ∧
    postStarts rec1.postcode ("SW1".toList.take 2) = true :=
  ⟨((c2_nearby_area_filter e0 "sw1".toList 0).2 "SW1".toList (by decide)).1,
   ((c2_nearby_area_filter e0 "sw1".toList 0).2 "SW1".toList (by decide)).2
     rec1 none (by decide)⟩

/-- Claim C3: the comprehensive search result (by-name at threshold `0.1`,
then by-location, then nearby, concatenated) holds no two rows with the same
(Garage Name, Postcode) key; each returned row is the first row with its key
in the concatenation; every key of the concatenation is represented; and a
key that occurs among the by-name rows is returned as its by-name row (with
its score), giving by-name priority. -/
theorem c3_comprehensive_dedup (e : Engine) (q : List Char) :
    (comprehensiveSearch e q).Pairwise (fun a b => keyOf a ≠ keyOf b) ∧
    (∀ p ∈ comprehensiveSearch e q,
      (liftScored (searchByName e q pointOne) ++ liftScored (searchByLocation e q) ++
        liftPlain (searchNearby e q)).find? (fun x => keyOf x = keyOf p) = some p) ∧
    (∀ p ∈ liftScored (searchByName e q pointOne) ++ liftScored (searchByLocation e q) ++
        liftPlain (searchNearby e q),
      ∃ p2 ∈ comprehensiveSearch e q, keyOf p2 = keyOf p) ∧
    (∀ p ∈ comprehensiveSearch e q,
      (∃ x ∈ liftScored (searchByName e q pointOne), keyOf x = keyOf p) →
        p ∈ liftScored (searchByName e q pointOne)) := by
  refine ⟨dedupByKey_pairwise _, fun p hp => dedupByKey_find hp,
    fun p hp => dedupByKey_covers hp, ?_⟩
  intro p hp hex
  have hfind := dedupByKey_find hp
  rcases hex with ⟨x, hx, hkx⟩
  have hfind2 : (liftScored (searchByName e q pointOne) ++
      (liftScored (searchByLocation e q) ++ liftPlain (searchNearby e q))).find?
        (fun y => keyOf y = keyOf p) = some p := by
    rw [← List.append_assoc]
    exact hfind
  exact find?_append_mem hfind2 ⟨x, hx, by simp [hkx]⟩

/-- Witness for `c3_comprehensive_dedup` at the engine `e0` and query
`acme`: the single result row has pairwise-distinct keys, is the first entry
with its key in the concatenation, and is the by-name row for its key. -/
theorem c3_comprehensive_dedup_witness :
    (comprehensiveSearch e0 "acme".toList).Pairwise (fun a b => keyOf a ≠ keyOf b) ∧
    ((liftScored (searchByName e0 "acme".toList pointOne) ++
      liftScored (searchByLocation e0 "acme".toList) ++
      liftPlain (searchNearby e0 "acme".toList)).find?
        (fun x => keyOf x = keyOf (rec1, some (0 : ℚ))) = some (rec1, some (0 : ℚ))) ∧
    (rec1, some (0 : ℚ)) ∈ liftScored (searchByName e0 "acme".toList pointOne) :=
  ⟨(c3_comprehensive_dedup e0 "acme".toList).1,
   (c3_comprehensive_dedup e0 "acme".toList).2.1 (rec1, some 0) (by decide),
   (c3_comprehensive_dedup e0 "acme".toList).2.2.2 (rec1, some 0) (by decide)
     (by decide)⟩

/-- Claim C4: raising the by-name threshold never adds results.  For
thresholds `t1 ≤ t2`, every row of `search(q, "name", t2)` is a row of
`search(q, "name", t1)`, and the result count is non-increasing in the
threshold. -/
theorem c4_threshold_monotone (e : Engine) (q : List Char) (t1 t2 : ℚ)
    (h : t1 ≤ t2) :
    (∀ x, x ∈ search e q "name" t2 → x ∈ search e q "name" t1) ∧
    (search e q "name" t2).length ≤ (search e q "name" t1).length := by
  constructor
  · intro x hx
    rw [search_name_eq] at hx ⊢
    rcases x with ⟨r, sc⟩
    rcases mem_liftScored.mp hx with ⟨s, rfl, hm⟩
    rcases mem_searchByName.mp hm with ⟨h1, h2, h3⟩
    refine mem_liftScored.mpr ⟨s, rfl, mem_searchByName.mpr ⟨h1, h2, ?_⟩⟩
    rcases h3 with h3 | h3
    · exact Or.inl (le_trans h h3)
    · exact Or.inr h3
  · rw [search_name_eq, search_name_eq]
    unfold liftScored
    rw [List.length_map, List.length_map]
    unfold searchByName
    rw [length_sortDesc, length_sortDesc]
    apply length_filter_mono
    intro a _ hp
    simp only [Bool.or_eq_true, decide_eq_true_eq] at hp ⊢
    rcases hp with hp | hp
    · exact Or.inl (le_trans h hp)
    · exact Or.inr hp

/-- Witness for `c4_threshold_monotone` at the engine `e0`, query `acme`
and the threshold pair `0 ≤ 1`. -/
theorem c4_threshold_monotone_witness :
    ((rec1, some (0 : ℚ)) ∈ search e0 "acme".toList "name" 1 →
      (rec1, some (0 : ℚ)) ∈ search e0 "acme".toList "name" 0) ∧
    (search e0 "acme".toList "name" 1).length ≤
      (search e0 "acme".toList "name" 0).length :=
  ⟨fun hx => (c4_threshold_monotone e0 "acme".toList 0 1 (by decide)).1
    (rec1, some 0) hx,
   (c4_threshold_monotone e0 "acme".toList 0 1 (by decide)).2⟩

/-- Claim C5: every strategy tag outside `name`, `location` and `nearby` —
including `all` — falls through to the comprehensive search, the threshold
argument is ignored, and no invalid-argument error is raised. -/
theorem c5_unknown_tag_fallback (e : Engine) (q : List Char) (t : ℚ)
    (tag : String) (h1 : tag ≠ "name") (h2 : tag ≠ "location")
    (h3 : tag ≠ "nearby") :
    search e q tag t = comprehensiveSearch e q ∧
    (∀ t2 : ℚ, search e q tag t = search e q tag t2) := by
  refine ⟨by simp [search, h1, h2, h3], fun t2 => by simp [search, h1, h2, h3]⟩

/-- Witness for `c5_unknown_tag_fallback` at the tag `all` (the tag the UI
sends for a comprehensive search), with thresholds `0` and `1`. -/
theorem c5_unknown_tag_fallback_witness :
    search e0 "acme".toList "all" 0 = comprehensiveSearch e0 "acme".toList ∧
    search e0 "acme".toList "all" 0 = search e0 "acme".toList "all" 1 :=
  ⟨(c5_unknown_tag_fallback e0 "acme".toList 0 "all" (by decide) (by decide)
      (by decide)).1,
   (c5_unknown_tag_fallback e0 "acme".toList 0 "all" (by decide) (by decide)
      (by decide)).2 1⟩

/-- Claim C6, counterexample to the claim as stated: a source that has the
four columns `prepare_data` reads but lacks Phone (and Email and Website)
loads successfully — `prepare_data` never touches those three columns, so
their absence does not halt initialization.  (They are only dereferenced
later, when the presentation layer renders a result row.) -/
theorem c6_counterexample :
    tabNoPhone.cols.contains "Phone" = false ∧
    tabNoPhone.cols.contains "Email" = false ∧
    tabNoPhone.cols.contains "Website" = false ∧
    exceptOk (loadPrepared (some tabNoPhone)) = true := by
  refine ⟨by decide, by decide, by decide, by decide⟩

/-- Claim C6 (amended): initialization fails, with a surfaced data error and
no partial catalog, when the source file is missing, or when the table has
at least one row and lacks one of the four columns that `prepare_data`
actually reads: Garage Name, Location, City, Postcode.  Missing Phone,
Email or Website columns do not fail the load (see `c6_counterexample`). -/
theorem c6_load_failure (src : Option RawTable)
    (h : src = none ∨ ∃ t r0 rest, src = some t ∧ t.rows = r0 :: rest ∧
          ∃ c ∈ requiredCols, t.cols.contains c = false) :
    exceptOk (loadPrepared src) = false := by
  rcases h with rfl | ⟨t, r0, rest, rfl, hrows, hc⟩
  · rfl
  · exact loadPrepared_error_of_missing t r0 rest hrows hc

/-- Witness for `c6_load_failure` at the concrete source `tabNoCity`, which
has one row and no City column. -/
theorem c6_load_failure_witness :
    exceptOk (loadPrepared (some tabNoCity)) = false :=
  c6_load_failure (some tabNoCity)
    (Or.inr ⟨tabNoCity, [some "Acme".toList, none, some "SW1A 1AA".toList], [],
      rfl, rfl, "City", by decide, by decide⟩)

/-- Claim C7: `search(q, "location", t)` ignores the caller threshold `t`
(any two thresholds give the same result), returns exactly the records whose
similarity score reaches the fixed `0.1 = 1/10`, each paired with its score,
with no substring fallback, and the rows are sorted by score descending. -/
theorem c7_location_fixed_threshold (e : Engine) (q : List Char) (t t2 : ℚ) :
    search e q "location" t = search e q "location" t2 ∧
    search e q "location" t = liftScored (searchByLocation e q) ∧
    (∀ p : Record × ℚ, p ∈ searchByLocation e q ↔
      p.1 ∈ e.catalog ∧ p.2 = e.sim (lowerStr q) p.1 ∧ (1 : ℚ) / 10 ≤ p.2) ∧
    (searchByLocation e q).Sorted scoreGE := by
  refine ⟨by rw [search_location_eq, search_location_eq],
    search_location_eq e q t, fun p => ?_, sorted_sortDesc _⟩
  rw [mem_searchByLocation, pointOne_eq]

/-- Claim C8: when the query contains an area pattern, the nearby search is
exactly the catalog filtered by the two-character postcode prefix — the
matching records appear in catalog order (the filtered list is a sublist of
the catalog) and carry no similarity score, so no score ranking is applied. -/
theorem c8_nearby_catalog_order (e : Engine) (q : List Char) (t : ℚ)
    (m : List Char) (h : areaSearch false (upperStr q) = some m) :
    (searchNearby e q).Sublist e.catalog ∧
    search e q "nearby" t =
      liftPlain (e.catalog.filter (fun r => postStarts r.postcode (m.take 2))) := by
  have hn : searchNearby e q =
      e.catalog.filter (fun r => postStarts r.postcode (m.take 2)) := by
    simp [searchNearby, h]
  constructor
  · rw [hn]
    exact List.filter_sublist _
  · rw [search_nearby_eq, hn]

/-- Witness for `c8_nearby_catalog_order` at the engine `e0` and the query
`sw1`, whose first area match is `SW1`. -/
theorem c8_nearby_catalog_order_witness :
    (searchNearby e0 "sw1".toList).Sublist e0.catalog ∧
    search e0 "sw1".toList "nearby" 0 =
      liftPlain (e0.catalog.filter
        (fun r => postStarts r.postcode ("SW1".toList.take 2))) :=
  c8_nearby_catalog_order e0 "sw1".toList 0 "SW1".toList (by decide)

/-- Claim C9: searching is read-only on the engine state.  Each search
method works on a copy of the frame and writes nothing back, so the engine
after one search — and after any sequence of searches with arbitrary
queries, strategy tags and thresholds — is exactly the engine produced by
initialization, catalog, derived columns and term index included. -/
theorem c9_search_immutable (e : Engine) (q : List Char) (tag : String)
    (t : ℚ) (ops : List (List Char × String × ℚ)) :
    (searchS e q tag t).2 = e ∧ runSearches e ops = e := by
  refine ⟨rfl, ?_⟩
  induction ops with
  | nil => rfl
  | cons op rest ih =>
    rcases op with ⟨q2, tag2, t2⟩
    simpa [runSearches, searchS] using ih

/-- Claim C10: on a catalog whose names are all present, the empty query
with any positive threshold returns the whole catalog from the by-name
search: whatever the similarity scores are (the real pipeline yields the
all-zero vector for the empty query), the containment clause matches every
name because the empty pattern is contained in every string.  Every catalog
record is returned with its score, only catalog records are returned, and
the result count equals the catalog size. -/
theorem c10_empty_query_full_catalog (e : Engine) (t : ℚ)
    (hn : ∀ r ∈ e.catalog, r.garageName ≠ none) (ht : 0 < t) :
    (∀ r ∈ e.catalog, (r, some (e.sim (lowerStr []) r)) ∈ search e [] "name" t) ∧
    (∀ r sc, (r, sc) ∈ search e [] "name" t → r ∈ e.catalog) ∧
    (search e [] "name" t).length = e.catalog.length := by
  refine ⟨?_, ?_, ?_⟩
  · intro r hr
    rw [search_name_eq]
    refine mem_liftScored.mpr ⟨_, rfl, mem_searchByName.mpr ⟨hr, rfl, Or.inr ?_⟩⟩
    cases hgn : r.garageName with
    | none => exact absurd hgn (hn r hr)
    | some n => simp [nameContains, hgn, lowerStr, pdContains_nil]
  · intro r sc hmem
    rw [search_name_eq] at hmem
    rcases mem_liftScored.mp hmem with ⟨s, rfl, hm⟩
    exact (mem_searchByName.mp hm).1
  · rw [search_name_eq]
    unfold liftScored
    rw [List.length_map]
    unfold searchByName
    rw [length_sortDesc]
    have hall : ∀ p ∈ e.catalog.map (fun r => (r, e.sim (lowerStr []) r)),
        (t ≤ p.2 || nameContains p.1 (lowerStr [])) = true := by
      intro p hp
      rcases List.mem_map.mp hp with ⟨r, hr, hEq⟩
      cases hEq
      cases hgn : r.garageName with
      | none => exact absurd hgn (hn r hr)
      | some n => simp [nameContains, hgn, lowerStr, pdContains_nil]
    rw [List.filter_eq_self.mpr hall, List.length_map]

/-- Witness for `c10_empty_query_full_catalog` at the engine `e0` (whose
single record has a present name) and threshold `1`. -/
theorem c10_empty_query_full_catalog_witness :
    (rec1, some (e0.sim (lowerStr []) rec1)) ∈ search e0 [] "name" 1 ∧
    ((rec1, (none : Option ℚ)) ∈ search e0 [] "name" 1 → rec1 ∈ e0.catalog) ∧
    (search e0 [] "name" 1).length = e0.catalog.length :=
  ⟨(c10_empty_query_full_catalog e0 1 (by decide) (by decide)).1 rec1
     (by decide),
   fun hmem => (c10_empty_query_full_catalog e0 1 (by decide) (by decide)).2.1
     rec1 none hmem,
   (c10_empty_query_full_catalog e0 1 (by decide) (by decide)).2.2⟩
